import Mathlib

/-!
Shallow embedding of the multi-level queue scheduler (mlqs.py, app.py).

Modelling conventions:
* Python integers are modelled as `ℤ`; history samples and counters as `ℕ`.
* `asyncio.Queue` contents are a `List Process` (front = oldest entry).
* Wall-clock readings (`time.time()`) are modelled by a logical time
  parameter `now : ℤ` handed to every operation that reads the clock; no
  verified property depends on the concrete wait-time values.
* Event-loop timing: the body of one `run_scheduler` iteration has no true
  yield point before its final `asyncio.sleep(1)` (gets on non-empty queues
  and puts on unbounded queues return immediately), so tasks spawned with
  `asyncio.create_task(self.execute_and_count ...)` first run during that
  sleep.  We model the regime in which each dispatched slice also finishes
  within the tick interval (`slice / speed_factor ≤ 1`), so every pending
  execution is applied in full at the end of the tick that dispatched it.
-/

namespace MLQS

/-- `Process.__init__` (mlqs.py 9-16): name, original burst, remaining time;
initially `remaining_time = burst_time`.  `burst_time` is never mutated. -/
structure Process where
  name : String
  burst_time : ℤ
  remaining_time : ℤ
deriving DecidableEq

def Process.init (name : String) (burst_time : ℤ) : Process :=
  { name := name, burst_time := burst_time, remaining_time := burst_time }

/-- `ProcessQueue.__init__` (mlqs.py 18-32).  `queue` and `timestamps` are
positionally aligned (oldest first). -/
structure ProcessQueue where
  name : String
  algorithm : String
  queue : List Process
  new_process_count : ℕ
  wait_times : List ℤ
  timestamps : List ℤ
deriving DecidableEq

def ProcessQueue.init (name algorithm : String) : ProcessQueue :=
  { name := name, algorithm := algorithm, queue := [], new_process_count := 0,
    wait_times := [], timestamps := [] }

/-- `ProcessQueue.add_process` (mlqs.py 34-45): put the process, bump the
counter, append the current timestamp. -/
def ProcessQueue.add_process (q : ProcessQueue) (process : Process) (now : ℤ) : ProcessQueue :=
  { q with queue := q.queue ++ [process],
           new_process_count := q.new_process_count + 1,
           timestamps := q.timestamps ++ [now] }

/-- `ProcessQueue.get_process` (mlqs.py 47-58): pop the oldest process and
its timestamp, record `now - timestamp` as a wait sample.  In the source the
call suspends until an entry exists; callers only invoke it on non-empty
queues, so the `none` branch is never taken there. -/
def ProcessQueue.get_process (q : ProcessQueue) (now : ℤ) : Option (Process × ProcessQueue) :=
  match q.queue, q.timestamps with
  | process :: rest, ts :: tss =>
      some (process,
        { q with queue := rest, timestamps := tss,
                 wait_times := q.wait_times ++ [now - ts] })
  | _, _ => none

/-- `ProcessQueue.is_empty` (mlqs.py 60-66). -/
def ProcessQueue.is_empty (q : ProcessQueue) : Bool := q.queue.isEmpty

/-- `CPU.__init__` (mlqs.py 69-83).  `burst_time` is the CPU's slice limit. -/
structure CPU where
  id : ℕ
  is_free : Bool
  completed_process_count : ℕ
  execution_times : List ℤ
  speedup : ℤ
  burst_time : ℤ
deriving DecidableEq

def CPU.init (id : ℕ) (speedup burst_time : ℤ) : CPU :=
  { id := id, is_free := true, completed_process_count := 0, execution_times := [],
    speedup := speedup, burst_time := burst_time }

/-- `CPU.execute_process` (mlqs.py 85-105): run a slice of
`min(remaining_time, burst_time)` units (the `asyncio.sleep` of
`process_time / speedup` only consumes time and is not state), subtract it
from the process, mark the CPU free, bump `completed_process_count`, and
append the slice to `execution_times` — all regardless of whether the
process finished. -/
def CPU.execute_process (cpu : CPU) (process : Process) : CPU × Process :=
  let process_time := min process.remaining_time cpu.burst_time
  ({ cpu with is_free := true,
              completed_process_count := cpu.completed_process_count + 1,
              execution_times := cpu.execution_times ++ [process_time] },
   { process with remaining_time := process.remaining_time - process_time })

/-- The mutation performed on a carried-over Round-Robin process
(mlqs.py 240-241): `time_to_run = min(remaining_time, time_quantum)` and
`remaining_time -= time_to_run`. -/
def rrDecrement (time_quantum : ℤ) (process : Process) : Process :=
  { process with
      remaining_time := process.remaining_time - min process.remaining_time time_quantum }

/-- `MultiLevelQueueScheduler.get_rr_process` (mlqs.py 221-249), as a
function of the scheduler's `time_quantum` and the queue.  Returns the
selected process (if any), the updated queue, and the increment applied to
`completed_processes` (line 248; in the source that line is only reachable
when the popped process simultaneously has `remaining_time > time_quantum`
and `remaining_time ≤ 0`). -/
def get_rr_process (time_quantum : ℤ) (q : ProcessQueue) (now : ℤ) :
    Option Process × ProcessQueue × ℕ :=
  match q.get_process now with
  | none => (none, q, 0)
  | some (process, q1) =>
    if process.remaining_time ≤ time_quantum then
      (some process, q1, 0)
    else if 0 < process.remaining_time then
      (none, q1.add_process (rrDecrement time_quantum process) now, 0)
    else
      (some process, q1, 1)

/-- The drain `[await queue.get_process() for _ in range(queue.queue.qsize())]`
of mlqs.py 262: `qsize` successive pops. -/
def drainAll (now : ℤ) : ℕ → ProcessQueue → List Process × ProcessQueue
  | 0, q => ([], q)
  | n + 1, q =>
    match q.get_process now with
    | none => ([], q)
    | some (p, q1) =>
      let r := drainAll now n q1
      (p :: r.1, r.2)

/-- The comparison behind `processes.sort(key=lambda p: p.burst_time)`. -/
def burstLE (p q : Process) : Prop := p.burst_time ≤ q.burst_time

instance : DecidableRel burstLE :=
  fun p q => inferInstanceAs (Decidable (p.burst_time ≤ q.burst_time))

instance : IsTotal Process burstLE := ⟨fun p q => le_total p.burst_time q.burst_time⟩

instance : IsTrans Process burstLE := ⟨fun _ _ _ h1 h2 => le_trans h1 h2⟩

/-- `processes.sort(key=lambda p: p.burst_time)` (mlqs.py 267): a stable
sort on the original burst time.  Python's sort is stable, and any two
stable sorts on the same key agree, so `List.insertionSort` on `burstLE`
computes the same list. -/
def sortByBurst (l : List Process) : List Process := List.insertionSort burstLE l

/-- `MultiLevelQueueScheduler.get_sjf_process` (mlqs.py 252-275): drain the
whole queue, sort by original burst time, select the first element, and
re-add the rest.  The source re-adds every drained object `!= selected`
while iterating over the *sorted* list; the drained objects are pairwise
distinct Python objects and `!=` on them is object identity, so exactly the
sorted tail is re-added, in sorted order. -/
def get_sjf_process (q : ProcessQueue) (now : ℤ) : Option Process × ProcessQueue :=
  let d := drainAll now q.queue.length q
  match sortByBurst d.1 with
  | [] => (none, d.2)
  | selected :: rest =>
    (some selected, rest.foldl (fun qq p => qq.add_process p now) d.2)

/-- The fixed priority levels, in the source's dict-insertion order
(mlqs.py 120-126). -/
def priorityLevels : List String :=
  ["Real Time", "System", "Interactive", "Batch", "Low Priority"]

/-- `MultiLevelQueueScheduler.__init__` state (mlqs.py 109-133). -/
structure MultiLevelQueueScheduler where
  time_quantum : ℤ
  queues : List (String × ProcessQueue)
  cpus : List CPU
  completed_processes : ℕ
  cpu_usage_data : List (List ℕ)
  queue_fill_data : List (String × List ℕ)
  speedup_simulation : ℤ
  burst_time : ℤ
  total_processes : ℕ
deriving DecidableEq

/-- `MultiLevelQueueScheduler.__init__` (mlqs.py 110-133); the parameter
order `(num_cpus, total_processes, speedup_simulation, time_quantum,
burst_time)` mirrors the Python signature. -/
def MultiLevelQueueScheduler.init (num_cpus total_processes : ℕ)
    (speedup_simulation time_quantum burst_time : ℤ) : MultiLevelQueueScheduler :=
  { time_quantum := time_quantum
    queues := [("Real Time", ProcessQueue.init "Real-Time" "FIFO"),
               ("System", ProcessQueue.init "System" "Round Robin"),
               ("Interactive", ProcessQueue.init "Interactive" "SJF"),
               ("Batch", ProcessQueue.init "Batch" "FIFO"),
               ("Low Priority", ProcessQueue.init "Low Priority" "Round Robin")]
    cpus := (List.range num_cpus).map (fun i => CPU.init i speedup_simulation burst_time)
    completed_processes := 0
    cpu_usage_data := List.replicate num_cpus []
    queue_fill_data := priorityLevels.map (fun key => (key, []))
    speedup_simulation := speedup_simulation
    burst_time := burst_time
    total_processes := total_processes }

/-- Replace the queue stored under `key` (the effect of mutating
`self.queues[priority]` through the shared object). -/
def updateQueue : List (String × ProcessQueue) → String → ProcessQueue →
    List (String × ProcessQueue)
  | [], _, _ => []
  | (k, q) :: rest, key, q1 =>
    if k == key then (k, q1) :: rest else (k, q) :: updateQueue rest key q1

/-- `MultiLevelQueueScheduler.schedule_process` (mlqs.py 135-145):
`self.queues[priority]` raises `KeyError(priority)` on an unknown key,
modelled as `Except.error priority`; otherwise the fresh process is added
to the selected queue. -/
def MultiLevelQueueScheduler.schedule_process (s : MultiLevelQueueScheduler)
    (priority name : String) (burst_time : ℤ) (now : ℤ) :
    Except String MultiLevelQueueScheduler :=
  let process := Process.init name burst_time
  match s.queues.lookup priority with
  | none => Except.error priority
  | some queue =>
    Except.ok { s with queues := updateQueue s.queues priority (queue.add_process process now) }

/-- `MultiLevelQueueScheduler.execute_and_count` (mlqs.py 147-157): run
`cpu.execute_process` and then increment `completed_processes` — with no
check of the process's remaining time. -/
def execute_and_count (cpu : CPU) (process : Process) (completed_processes : ℕ) :
    CPU × Process × ℕ :=
  let r := cpu.execute_process process
  (r.1, r.2, completed_processes + 1)

/-- `np.mean` over the recorded wait samples (mlqs.py 285). -/
def npMean (ws : List ℤ) : ℚ := (ws.sum : ℚ) / (ws.length : ℚ)

/-- `MultiLevelQueueScheduler.average_wait_times` (mlqs.py 278-285):
`np.mean(queue.wait_times) if queue.wait_times else 0`, per queue. -/
def MultiLevelQueueScheduler.average_wait_times (s : MultiLevelQueueScheduler) :
    List (String × ℚ) :=
  s.queues.map (fun kq => (kq.1, if kq.2.wait_times.isEmpty then (0 : ℚ) else npMean kq.2.wait_times))

/-- `next((cpu for cpu in self.cpus if cpu.is_free), None)` followed by
`available_cpu.is_free = False` (mlqs.py 187-189): the index of the first
free CPU and the pool with that CPU marked busy. -/
def claimFirstFree : List CPU → Option (ℕ × List CPU)
  | [] => none
  | cpu :: rest =>
    if cpu.is_free then some (0, { cpu with is_free := false } :: rest)
    else (claimFirstFree rest).map (fun r => (r.1 + 1, cpu :: r.2))

/-- Result of processing one priority level inside a tick. -/
structure QueueStepResult where
  queue : ProcessQueue
  cpus : List CPU
  was_empty : Bool
  task : Option (ℕ × Process)
  completed_inc : ℕ
deriving DecidableEq

/-- The body of the per-priority loop (mlqs.py 174-192): when the queue is
non-empty, select a process by the queue's algorithm; if one was obtained,
dispatch it to the first free CPU (recorded as a pending task) or, when no
CPU is free, put it back into the same queue. -/
def queueStep (time_quantum now : ℤ) (q : ProcessQueue) (cpus : List CPU) : QueueStepResult :=
  if q.is_empty then ⟨q, cpus, true, none, 0⟩
  else
    let sel : Option Process × ProcessQueue × ℕ :=
      if q.algorithm = "Round Robin" then get_rr_process time_quantum q now
      else if q.algorithm = "FIFO" then
        match q.get_process now with
        | some (p, q1) => (some p, q1, 0)
        | none => (none, q, 0)
      else if q.algorithm = "SJF" then
        let r := get_sjf_process q now
        (r.1, r.2, 0)
      else (none, q, 0)
    match sel with
    | (some p, q1, inc) =>
      match claimFirstFree cpus with
      | some (i, cpus1) => ⟨q1, cpus1, false, some (i, p), inc⟩
      | none => ⟨q1.add_process p now, cpus, false, none, inc⟩
    | (none, q1, inc) => ⟨q1, cpus, false, none, inc⟩

/-- `for i, cpu in enumerate(self.cpus): self.cpu_usage_data[i].append(...)`
(mlqs.py 194-195); the outer list is index-aligned with the CPU pool. -/
def appendUsage (usage : List (List ℕ)) (cpus : List CPU) : List (List ℕ) :=
  List.zipWith (fun d cpu => d ++ [if cpu.is_free then 0 else 1]) usage cpus

/-- `self.queue_fill_data[priority].append(queue.queue.qsize())`
(mlqs.py 197-198); both association lists carry the keys in the same
fixed order. -/
def appendFill (fill : List (String × List ℕ)) (queues : List (String × ProcessQueue)) :
    List (String × List ℕ) :=
  List.zipWith (fun kd kq => (kd.1, kd.2 ++ [kq.2.queue.length])) fill queues

/-- Accumulated result of one pass over all priority levels. -/
structure TickResult where
  queues : List (String × ProcessQueue)
  cpus : List CPU
  usage : List (List ℕ)
  all_empty : Bool
  pending : List (ℕ × Process)
  completed_inc : ℕ
deriving DecidableEq

/-- The `for priority, queue in self.queues.items()` loop of one tick
(mlqs.py 173-195).  Note that the CPU busy-state sampling of lines 194-195
sits inside this loop, so it runs once per priority level. -/
def tickQueues (time_quantum now : ℤ) :
    List (String × ProcessQueue) → List CPU → List (List ℕ) → TickResult
  | [], cpus, usage => ⟨[], cpus, usage, true, [], 0⟩
  | (key, q) :: rest, cpus, usage =>
    let st := queueStep time_quantum now q cpus
    let usage1 := appendUsage usage st.cpus
    let r := tickQueues time_quantum now rest st.cpus usage1
    ⟨(key, st.queue) :: r.queues, r.cpus, r.usage,
     st.was_empty && r.all_empty, st.task.toList ++ r.pending,
     st.completed_inc + r.completed_inc⟩

/-- Completion of the tasks dispatched during a tick, which run during the
tick's closing `asyncio.sleep(1)`: each pending `(cpu index, process)` pair
goes through `execute_and_count` (mlqs.py 147-157, 190). -/
def runPending (cpus : List CPU) (completed : ℕ) : List (ℕ × Process) → List CPU × ℕ
  | [] => (cpus, completed)
  | (i, process) :: rest =>
    match cpus[i]? with
    | some cpu =>
      let r := execute_and_count cpu process completed
      runPending (cpus.set i r.1) r.2.2 rest
    | none => runPending cpus completed rest

/-- One iteration of the `while True` loop of `run_scheduler`
(mlqs.py 171-204): process every priority level (sampling CPU usage once
per level), sample every queue length once, test the exit condition, and —
when the loop does not exit — let the dispatched executions run during the
sleep.  Returns the new state and whether the loop broke. -/
def MultiLevelQueueScheduler.tick (s : MultiLevelQueueScheduler) (now : ℤ) :
    MultiLevelQueueScheduler × Bool :=
  let r := tickQueues s.time_quantum now s.queues s.cpus s.cpu_usage_data
  let fill1 := appendFill s.queue_fill_data r.queues
  let completed1 := s.completed_processes + r.completed_inc
  if r.all_empty = true ∧ completed1 = s.total_processes then
    ({ s with queues := r.queues, cpus := r.cpus, cpu_usage_data := r.usage,
              queue_fill_data := fill1, completed_processes := completed1 }, true)
  else
    let fin := runPending r.cpus completed1 r.pending
    ({ s with queues := r.queues, cpus := fin.1, cpu_usage_data := r.usage,
              queue_fill_data := fill1, completed_processes := fin.2 }, false)

/-- `MultiLevelQueueScheduler.run_scheduler` (mlqs.py 159-206) with explicit
fuel: iterate ticks until the loop breaks; `some` is returned exactly when
the loop exits within `fuel` iterations.  The returned artifacts are the
fields `cpu_usage_data` and `queue_fill_data` together with
`average_wait_times`. -/
def MultiLevelQueueScheduler.run_scheduler (s : MultiLevelQueueScheduler) :
    ℕ → ℤ → Option MultiLevelQueueScheduler
  | 0, _ => none
  | fuel + 1, now =>
    let r := s.tick now
    if r.2 then some r.1 else r.1.run_scheduler fuel (now + 1)

/-- `n` executions of the tick-loop body, regardless of the exit test: the
state after a run of `run_scheduler` has performed `n` iterations. -/
def tickIter : ℕ → MultiLevelQueueScheduler → ℤ → MultiLevelQueueScheduler
  | 0, s, _ => s
  | n + 1, s, now => tickIter n (s.tick now).1 (now + 1)

/-- `run_simulation_dynamic` (app.py 8-27) constructs its scheduler with the
positional call `MultiLevelQueueScheduler(num_cpus, total_processes,
speedup_simulation, burst_time, time_quantum)`, so the caller's
`burst_time` lands in the constructor's `time_quantum` slot and vice
versa. -/
def run_simulation_dynamic (num_cpus total_processes : ℕ)
    (speedup_simulation burst_time time_quantum : ℤ) : MultiLevelQueueScheduler :=
  MultiLevelQueueScheduler.init num_cpus total_processes speedup_simulation
    burst_time time_quantum

/-- `run_simulation_static` (app.py 30-58) constructs its scheduler with
`MultiLevelQueueScheduler(num_cpus, total, speedup_simulation,
time_quantum=time_quantum)`, leaving `burst_time` at its default `3`. -/
def run_simulation_static (num_cpus total_processes : ℕ)
    (speedup_simulation time_quantum : ℤ) : MultiLevelQueueScheduler :=
  MultiLevelQueueScheduler.init num_cpus total_processes speedup_simulation
    time_quantum 3

/-- An SJF queue holding processes with original burst times `[5, 1, 3]` in
arrival order (the scenario of the spec's SJF test property). -/
def sjfQueue513 : ProcessQueue :=
  (((ProcessQueue.init "Interactive" "SJF").add_process (Process.init "A" 5) 0).add_process
      (Process.init "B" 1) 0).add_process (Process.init "C" 3) 0

/-- A Round-Robin queue holding a single process of burst time `5`. -/
def rrQueueBurst5 : ProcessQueue :=
  (ProcessQueue.init "Low Priority" "Round Robin").add_process (Process.init "P" 5) 0

/-- The Round-Robin queue after the first selection round with quantum 2. -/
def rrQueueRound1 : ProcessQueue := (get_rr_process 2 rrQueueBurst5 0).2.1

/-- The Round-Robin queue after the second selection round with quantum 2. -/
def rrQueueRound2 : ProcessQueue := (get_rr_process 2 rrQueueRound1 1).2.1

lemma lookup_isSome_of_mem_keys :
    ∀ {l : List (String × ProcessQueue)} {k : String},
      k ∈ l.map Prod.fst → ∃ q, l.lookup k = some q := by
  intro l
  induction l with
  | nil => intro k h; simp at h
  | cons a rest ih =>
    intro k h
    obtain ⟨a1, a2⟩ := a
    by_cases hk : k = a1
    · exact ⟨a2, by simp [List.lookup, hk]⟩
    · have hm : k ∈ rest.map Prod.fst := by
        simpa [hk] using h
      obtain ⟨q, hq⟩ := ih hm
      refine ⟨q, ?_⟩
      rw [show ((a1, a2) :: rest).lookup k = rest.lookup k by
        simp [List.lookup, beq_eq_false_iff_ne.mpr hk]]
      exact hq

lemma lookup_eq_none_of_not_mem_keys :
    ∀ {l : List (String × ProcessQueue)} {k : String},
      k ∉ l.map Prod.fst → l.lookup k = none := by
  intro l
  induction l with
  | nil => intro k _; rfl
  | cons a rest ih =>
    intro k h
    obtain ⟨a1, a2⟩ := a
    have hk : k ≠ a1 := by
      intro hc
      exact h (by simp [hc])
    have hm : k ∉ rest.map Prod.fst := by
      intro hc
      exact h (by simp [hc])
    rw [show ((a1, a2) :: rest).lookup k = rest.lookup k by
      simp [List.lookup, beq_eq_false_iff_ne.mpr hk]]
    exact ih hm

lemma lookup_updateQueue_self :
    ∀ {l : List (String × ProcessQueue)} {k : String} (q1 : ProcessQueue),
      k ∈ l.map Prod.fst → (updateQueue l k q1).lookup k = some q1 := by
  intro l
  induction l with
  | nil => intro k q1 h; simp at h
  | cons a rest ih =>
    intro k q1 h
    obtain ⟨a1, a2⟩ := a
    by_cases hk : a1 = k
    · simp [updateQueue, hk, List.lookup]
    · have hne : k ≠ a1 := fun hc => hk hc.symm
      have hm : k ∈ rest.map Prod.fst := by
        simpa [hne] using h
      rw [show updateQueue ((a1, a2) :: rest) k q1 = (a1, a2) :: updateQueue rest k q1 by
        simp [updateQueue, beq_eq_false_iff_ne.mpr hk]]
      rw [show ((a1, a2) :: updateQueue rest k q1).lookup k = (updateQueue rest k q1).lookup k by
        simp [List.lookup, beq_eq_false_iff_ne.mpr hne]]
      exact ih q1 hm

/-- Claim C6: `schedule_process` with one of the five fixed priority levels
enqueues a process with the given name and burst time into that priority's
queue; any other priority string makes the dictionary lookup fail, and the
error propagates to the caller (modelled as `Except.error`). -/
theorem schedule_process_priority_contract (s : MultiLevelQueueScheduler)
    (priority name : String) (burst_time now : ℤ)
    (hkeys : s.queues.map Prod.fst = priorityLevels) :
    (priority ∈ priorityLevels →
      ∃ q s1, s.queues.lookup priority = some q
        ∧ s.schedule_process priority name burst_time now = Except.ok s1
        ∧ s1.queues.lookup priority
            = some (q.add_process (Process.init name burst_time) now))
    ∧ (priority ∉ priorityLevels →
      s.schedule_process priority name burst_time now = Except.error priority) := by
  constructor
  · intro hp
    have hm : priority ∈ s.queues.map Prod.fst := by rw [hkeys]; exact hp
    obtain ⟨q, hq⟩ := lookup_isSome_of_mem_keys hm
    have hok : s.schedule_process priority name burst_time now = Except.ok { s with queues := updateQueue s.queues priority (q.add_process (Process.init name burst_time) now) } := by
      unfold MultiLevelQueueScheduler.schedule_process
      rw [hq]
    refine ⟨q, _, hq, hok, ?_⟩
    exact lookup_updateQueue_self _ hm
  · intro hp
    have hm : priority ∉ s.queues.map Prod.fst := by rw [hkeys]; exact hp
    unfold MultiLevelQueueScheduler.schedule_process
    rw [lookup_eq_none_of_not_mem_keys hm]

/-- Claim C6 witness: on a freshly constructed scheduler, scheduling into
`"Batch"` succeeds and enqueues the process, while an unknown priority
string propagates a lookup error. -/
theorem schedule_process_priority_contract_witness :
    (∃ q s1,
        (MultiLevelQueueScheduler.init 1 0 1 2 3).queues.lookup "Batch" = some q
        ∧ (MultiLevelQueueScheduler.init 1 0 1 2 3).schedule_process "Batch" "P" 7 0
            = Except.ok s1
        ∧ s1.queues.lookup "Batch" = some (q.add_process (Process.init "P" 7) 0))
    ∧ (MultiLevelQueueScheduler.init 1 0 1 2 3).schedule_process "Oops" "P" 7 0
        = Except.error "Oops" :=
  ⟨(schedule_process_priority_contract (MultiLevelQueueScheduler.init 1 0 1 2 3)
      "Batch" "P" 7 0 (by decide)).1 (by decide),
   (schedule_process_priority_contract (MultiLevelQueueScheduler.init 1 0 1 2 3)
      "Oops" "P" 7 0 (by decide)).2 (by decide)⟩

/-- Claim C5: for every scheduler state and every queue of it,
`average_wait_times` carries an entry for that queue whose value is the
arithmetic mean of the queue's wait samples when at least one sample
exists, and exactly `0` when the sample list is empty; the function is
total, so no division failure can occur. -/
theorem average_wait_times_mean_or_zero (s : MultiLevelQueueScheduler)
    (key : String) (q : ProcessQueue) (h : (key, q) ∈ s.queues) :
    (q.wait_times = [] → (key, (0 : ℚ)) ∈ s.average_wait_times)
    ∧ (q.wait_times ≠ [] →
        (key, ((q.wait_times.sum : ℚ) / (q.wait_times.length : ℚ)))
          ∈ s.average_wait_times) := by
  constructor
  · intro he
    have hm := List.mem_map_of_mem
      (fun kq : String × ProcessQueue =>
        (kq.1, if kq.2.wait_times.isEmpty then (0 : ℚ) else npMean kq.2.wait_times)) h
    simpa [MultiLevelQueueScheduler.average_wait_times, he] using hm
  · intro hne
    have hm := List.mem_map_of_mem
      (fun kq : String × ProcessQueue =>
        (kq.1, if kq.2.wait_times.isEmpty then (0 : ℚ) else npMean kq.2.wait_times)) h
    simpa [MultiLevelQueueScheduler.average_wait_times, npMean,
      List.isEmpty_iff, hne] using hm

/-- Claim C5 witness: on a freshly constructed scheduler the `"Real Time"`
queue has no wait samples and its reported average is `0`. -/
theorem average_wait_times_mean_or_zero_witness :
    ("Real Time", (0 : ℚ)) ∈ (MultiLevelQueueScheduler.init 1 0 1 2 3).average_wait_times :=
  (average_wait_times_mean_or_zero (MultiLevelQueueScheduler.init 1 0 1 2 3)
    "Real Time" (ProcessQueue.init "Real-Time" "FIFO") (by decide)).1 rfl

/-- Claim C8: a process created with burst time `b ≥ 0` satisfies
`0 ≤ remaining_time ≤ burst_time`, and both mutating operations — the CPU
execution step, which subtracts `min(remaining_time, slice limit)`, and the
Round-Robin carry-over, which subtracts `min(remaining_time, time_quantum)`
— preserve the invariant, never increase `remaining_time`, and never leave
the original burst time (for non-negative slice limit and quantum, which
the configuration boundary guarantees). -/
theorem remaining_time_invariant (name : String) (b : ℤ) (p : Process) (cpu : CPU)
    (time_quantum : ℤ) (hb : 0 ≤ b) (h0 : 0 ≤ p.remaining_time)
    (h1 : p.remaining_time ≤ p.burst_time) (hcpu : 0 ≤ cpu.burst_time)
    (htq : 0 ≤ time_quantum) :
    (0 ≤ (Process.init name b).remaining_time
      ∧ (Process.init name b).remaining_time ≤ (Process.init name b).burst_time)
    ∧ (0 ≤ ((cpu.execute_process p).2).remaining_time
      ∧ ((cpu.execute_process p).2).remaining_time ≤ ((cpu.execute_process p).2).burst_time
      ∧ ((cpu.execute_process p).2).remaining_time ≤ p.remaining_time
      ∧ ((cpu.execute_process p).2).burst_time = p.burst_time)
    ∧ (0 ≤ (rrDecrement time_quantum p).remaining_time
      ∧ (rrDecrement time_quantum p).remaining_time ≤ (rrDecrement time_quantum p).burst_time
      ∧ (rrDecrement time_quantum p).remaining_time ≤ p.remaining_time
      ∧ (rrDecrement time_quantum p).burst_time = p.burst_time) := by
  refine ⟨⟨?_, ?_⟩, ⟨?_, ?_, ?_, ?_⟩, ⟨?_, ?_, ?_, ?_⟩⟩ <;>
    simp [Process.init, CPU.execute_process, rrDecrement] <;> omega

/-- Claim C8 witness: the invariant at a concrete process, CPU, and
quantum. -/
theorem remaining_time_invariant_witness :
    0 ≤ ((CPU.init 0 1 2).execute_process
      ({ name := "Y", burst_time := 5, remaining_time := 3 } : Process)).2.remaining_time :=
  (remaining_time_invariant "X" 4
      ({ name := "Y", burst_time := 5, remaining_time := 3 } : Process)
      (CPU.init 0 1 2) 2 (by decide) (by decide) (by decide) (by decide) (by decide)).2.1.1

/-- Claim C9: `run_simulation_dynamic` passes its `burst_time` and
`time_quantum` arguments positionally into the constructor's `time_quantum`
and `burst_time` slots, so the scheduler's Round-Robin quantum equals the
caller's `burst_time` and every CPU's slice limit equals the caller's
`time_quantum` — swapped relative to the static path, which passes
`time_quantum` by keyword and leaves the slice limit at its default `3`. -/
theorem dynamic_simulation_swapped_knobs (num_cpus total_processes : ℕ)
    (speedup_simulation burst_time time_quantum : ℤ) :
    (run_simulation_dynamic num_cpus total_processes speedup_simulation
        burst_time time_quantum).time_quantum = burst_time
    ∧ (run_simulation_dynamic num_cpus total_processes speedup_simulation
        burst_time time_quantum).cpus.map CPU.burst_time
        = List.replicate num_cpus time_quantum
    ∧ (run_simulation_static num_cpus total_processes speedup_simulation
        time_quantum).time_quantum = time_quantum
    ∧ (run_simulation_static num_cpus total_processes speedup_simulation
        time_quantum).cpus.map CPU.burst_time = List.replicate num_cpus (3 : ℤ) := by
  refine ⟨rfl, ?_, rfl, ?_⟩ <;>
    simp [run_simulation_dynamic, run_simulation_static,
      MultiLevelQueueScheduler.init, CPU.init, List.map_map, Function.comp_def]

/-- Claim C10: every call to `CPU.execute_process` increments that CPU's
`completed_process_count` by exactly one and appends the executed slice to
`execution_times`, with no condition on the process's remaining time;
consequently after any sequence of dispatches the counter equals the number
of dispatches received, not the number of processes run to completion. -/
theorem cpu_counter_counts_dispatches (cpu : CPU) (p : Process) (ps : List Process) :
    ((cpu.execute_process p).1.completed_process_count = cpu.completed_process_count + 1)
    ∧ ((cpu.execute_process p).1.execution_times
        = cpu.execution_times ++ [min p.remaining_time cpu.burst_time])
    ∧ ((ps.foldl (fun c q => (c.execute_process q).1) cpu).completed_process_count
        = cpu.completed_process_count + ps.length) := by
  refine ⟨rfl, rfl, ?_⟩
  induction ps generalizing cpu with
  | nil => rfl
  | cons q rest ih =>
    have h2 := ih (cpu.execute_process q).1
    simp only [List.foldl_cons] at h2 ⊢
    rw [h2, show (cpu.execute_process q).1.completed_process_count
        = cpu.completed_process_count + 1 from rfl, List.length_cons]
    omega

/-- Claim C2 (code-bug evidence): one CPU with slice limit 3 (the
constructor default) and a single `"Batch"` process of burst time 5.  The
CPU execution leaves `remaining_time = 2 ≠ 0`, yet the run terminates with
`completed_processes = 1` and every queue empty: `execute_and_count`
increments the completion counter after every dispatch and nothing ever
returns the unfinished process to its originating queue, so it is dropped
with positive remaining time — against the spec's completion/requeue
contract. -/
theorem dispatch_counts_and_drops_incomplete_process :
    ((((MultiLevelQueueScheduler.init 1 1 1 2 3).schedule_process "Batch" "P1" 5 0).toOption.bind
        (fun s => s.run_scheduler 2 0)).map
      (fun s => (s.completed_processes, s.queues.map (fun kq => kq.2.queue.length))))
      = some (1, [0, 0, 0, 0, 0])
    ∧ ((CPU.init 0 1 3).execute_process (Process.init "P1" 5)).2.remaining_time = 2
    ∧ (execute_and_count (CPU.init 0 1 3) (Process.init "P1" 5) 0).2.2 = 1
    ∧ (2 : ℤ) ≠ 0 := by
  refine ⟨by decide, by decide, by decide, by decide⟩

/-- Claim C4: Round-Robin with `time_quantum = 2` on a single process of
burst time 5: the first selection round does not hand the process to a CPU
(it is re-enqueued with its remaining time decremented by the quantum,
5 → 3), the second round re-enqueues again (3 → 1), and the third round —
`⌈5/2⌉ = 3` — hands the process to a CPU, where one execution slice with
any slice limit of at least 1 completes it. -/
theorem rr_quantum2_burst5_three_rounds (slice_limit : ℤ) (hL : 1 ≤ slice_limit) :
    (get_rr_process 2 rrQueueBurst5 0).1 = none
    ∧ rrQueueRound1.queue.map Process.remaining_time = [3]
    ∧ (get_rr_process 2 rrQueueRound1 1).1 = none
    ∧ rrQueueRound2.queue.map Process.remaining_time = [1]
    ∧ (get_rr_process 2 rrQueueRound2 2).1
        = some { name := "P", burst_time := 5, remaining_time := 1 }
    ∧ ((CPU.init 0 1 slice_limit).execute_process
        { name := "P", burst_time := 5, remaining_time := 1 }).2.remaining_time = 0 := by
  refine ⟨by decide, by decide, by decide, by decide, by decide, ?_⟩
  have hmin : min (1 : ℤ) slice_limit = 1 := min_eq_left hL
  simp [CPU.execute_process, CPU.init, hmin]

/-- Claim C4 witness: the scenario at slice limit 2. -/
theorem rr_quantum2_burst5_three_rounds_witness :
    (1 : ℤ) ≤ 2
    ∧ ((CPU.init 0 1 2).execute_process
        { name := "P", burst_time := 5, remaining_time := 1 }).2.remaining_time = 0 :=
  ⟨by decide, (rr_quantum2_burst5_three_rounds 2 (by decide)).2.2.2.2.2⟩

/-- Claim C3 counterexample: on the SJF queue with burst times `[5, 1, 3]`
in arrival order, one selection returns the burst-time-1 process, but the
queue afterwards holds the other two in ascending burst order — `C` (burst
3) before `A` (burst 5) — not in their original relative arrival order
(`A` before `C`) as the claim states. -/
theorem sjf_reenqueue_order_counterexample :
    (get_sjf_process sjfQueue513 1).1 = some (Process.init "B" 1)
    ∧ (get_sjf_process sjfQueue513 1).2.queue.map Process.name = ["C", "A"]
    ∧ (["C", "A"] : List String) ≠ ["A", "C"] := by
  refine ⟨by decide, by decide, by decide⟩

lemma drainAll_full (now : ℤ) :
    ∀ (l : List Process) (ts : List ℤ) (nm alg : String) (npc : ℕ) (ws : List ℤ),
      ts.length = l.length →
      drainAll now l.length ⟨nm, alg, l, npc, ws, ts⟩ =
        (l, ⟨nm, alg, [], npc, ws ++ ts.map (fun t => now - t), []⟩) := by
  intro l
  induction l with
  | nil =>
    intro ts nm alg npc ws h
    have hts : ts = [] := by
      cases ts with
      | nil => rfl
      | cons a b => simp at h
    subst hts
    simp [drainAll]
  | cons p rest ih =>
    intro ts nm alg npc ws h
    cases ts with
    | nil => simp at h
    | cons t tss =>
      have h1 : tss.length = rest.length := by simpa using h
      have ihx := ih tss nm alg npc (ws ++ [now - t]) h1
      simp [List.length_cons, drainAll, ProcessQueue.get_process, ihx]

lemma foldl_add_process (now : ℤ) :
    ∀ (ps : List Process) (q : ProcessQueue),
      (ps.foldl (fun qq p => qq.add_process p now) q).queue = q.queue ++ ps
      ∧ (ps.foldl (fun qq p => qq.add_process p now) q).timestamps
          = q.timestamps ++ List.replicate ps.length now := by
  intro ps
  induction ps with
  | nil => intro q; simp
  | cons p rest ih =>
    intro q
    obtain ⟨h1, h2⟩ := ih (q.add_process p now)
    simp only [List.foldl_cons] at h1 h2 ⊢
    constructor
    · rw [h1]; simp [ProcessQueue.add_process]
    · rw [h2]; simp [ProcessQueue.add_process, List.replicate_succ]

lemma sortByBurst_head_first_min :
    ∀ (l : List Process) (sel : Process) (rest : List Process),
      sortByBurst l = sel :: rest →
      ∃ pre post, l = pre ++ sel :: post ∧ ∀ p ∈ pre, sel.burst_time < p.burst_time := by
  intro l
  induction l with
  | nil => intro sel rest h; simp [sortByBurst] at h
  | cons a l2 ih =>
    intro sel rest h
    rw [sortByBurst, List.insertionSort] at h
    cases hs : List.insertionSort burstLE l2 with
    | nil =>
      rw [hs] at h
      simp only [List.orderedInsert] at h
      injection h with h1 h2
      exact ⟨[], l2, by simp [h1], by simp⟩
    | cons b r2 =>
      rw [hs] at h
      by_cases hab : burstLE a b
      · have hstep : List.orderedInsert burstLE a (b :: r2) = a :: b :: r2 := by
          simp [List.orderedInsert, hab]
        rw [hstep] at h
        injection h with h1 h2
        exact ⟨[], l2, by simp [h1], by simp⟩
      · have hstep : List.orderedInsert burstLE a (b :: r2)
            = b :: List.orderedInsert burstLE a r2 := by
          simp [List.orderedInsert, hab]
        rw [hstep] at h
        injection h with h1 h2
        obtain ⟨pre1, post1, hl2, hpre1⟩ := ih b r2 (by rw [sortByBurst]; exact hs)
        subst h1
        refine ⟨a :: pre1, post1, by simp [hl2], ?_⟩
        intro p hp
        rcases List.mem_cons.mp hp with rfl | hp2
        · exact lt_of_not_le hab
        · exact hpre1 p hp2

/-- Claim C3 (amended): one SJF selection on a queue with burst times
`[5, 1, 3]` returns the burst-time-1 process, and afterwards the queue
contains exactly the other two in ascending burst order (burst 3 before
burst 5); in general the selection drains the whole queue, picks the
process with the smallest original burst time — ties broken by arrival
order — and re-enqueues all others in sorted order with new arrival
timestamps. -/
theorem sjf_selects_min_reenqueues_sorted (q : ProcessQueue) (now : ℤ)
    (hne : q.queue ≠ []) (hts : q.timestamps.length = q.queue.length) :
    ∃ sel rest, sortByBurst q.queue = sel :: rest
      ∧ (get_sjf_process q now).1 = some sel
      ∧ (get_sjf_process q now).2.queue = rest
      ∧ (get_sjf_process q now).2.timestamps = List.replicate rest.length now
      ∧ sel ∈ q.queue
      ∧ (∀ p ∈ q.queue, sel.burst_time ≤ p.burst_time)
      ∧ (∃ pre post, q.queue = pre ++ sel :: post
          ∧ ∀ p ∈ pre, sel.burst_time < p.burst_time) := by
  obtain ⟨nm, alg, l, npc, ws, ts⟩ := q
  simp only at hne hts ⊢
  cases hsort : sortByBurst l with
  | nil =>
    exfalso
    have hp : List.Perm (List.insertionSort burstLE l) l := List.perm_insertionSort burstLE l
    rw [show List.insertionSort burstLE l = sortByBurst l from rfl, hsort] at hp
    exact hne (List.Perm.eq_nil hp.symm)
  | cons sel rest =>
    have hd := drainAll_full now l ts nm alg npc ws hts
    have hsjf : get_sjf_process ⟨nm, alg, l, npc, ws, ts⟩ now
        = (some sel, rest.foldl (fun qq p => qq.add_process p now) ⟨nm, alg, [], npc, ws ++ ts.map (fun t => now - t), []⟩) := by
      unfold get_sjf_process
      simp only [hd, hsort]
    have hqr := foldl_add_process now rest (⟨nm, alg, [], npc, ws ++ ts.map (fun t => now - t), []⟩ : ProcessQueue)
    have hperm : List.Perm (sel :: rest) l := by
      have hp : List.Perm (List.insertionSort burstLE l) l := List.perm_insertionSort burstLE l
      rw [show List.insertionSort burstLE l = sortByBurst l from rfl, hsort] at hp
      exact hp
    have hsorted : List.Sorted burstLE (sel :: rest) := by
      have hsi := List.sorted_insertionSort burstLE l
      rw [show List.insertionSort burstLE l = sortByBurst l from rfl, hsort] at hsi
      exact hsi
    have hmin : ∀ p ∈ l, sel.burst_time ≤ p.burst_time := by
      intro p hp
      rcases List.mem_cons.mp (hperm.mem_iff.mpr hp) with heq | hp3
      · rw [heq]
      · exact (List.sorted_cons.mp hsorted).1 p hp3
    refine ⟨sel, rest, rfl, by rw [hsjf], ?_, ?_,
      hperm.mem_iff.mp (List.mem_cons_self sel rest), hmin,
      sortByBurst_head_first_min l sel rest hsort⟩
    · rw [hsjf]
      simpa using hqr.1
    · rw [hsjf]
      simpa using hqr.2

/-- Claim C3 witness: the amended selection property applied to the
`[5, 1, 3]` scenario queue. -/
theorem sjf_selects_min_reenqueues_sorted_witness :
    ∃ sel rest, sortByBurst sjfQueue513.queue = sel :: rest
      ∧ (get_sjf_process sjfQueue513 1).1 = some sel
      ∧ (get_sjf_process sjfQueue513 1).2.queue = rest := by
  obtain ⟨sel, rest, h1, h2, h3, -⟩ :=
    sjf_selects_min_reenqueues_sorted sjfQueue513 1 (by decide) (by decide)
  exact ⟨sel, rest, h1, h2, h3⟩

lemma claimFirstFree_length :
    ∀ (cpus : List CPU) (i : ℕ) (cpus1 : List CPU),
      claimFirstFree cpus = some (i, cpus1) → cpus1.length = cpus.length := by
  intro cpus
  induction cpus with
  | nil => intro i c h; simp [claimFirstFree] at h
  | cons cpu rest ih =>
    intro i c h
    rw [claimFirstFree] at h
    by_cases hf : cpu.is_free = true
    · rw [if_pos hf] at h
      simp only [Option.some.injEq, Prod.mk.injEq] at h
      obtain ⟨-, h2⟩ := h
      rw [← h2]
      simp
    · rw [if_neg hf] at h
      cases hr : claimFirstFree rest with
      | none => rw [hr] at h; simp at h
      | some r =>
        obtain ⟨r1, r2⟩ := r
        rw [hr] at h
        simp only [Option.map_some', Option.some.injEq, Prod.mk.injEq] at h
        obtain ⟨-, h2⟩ := h
        rw [← h2, List.length_cons, ih r1 r2 hr, List.length_cons]

lemma queueStep_cpus_length (tq now : ℤ) (q : ProcessQueue) (cpus : List CPU) :
    (queueStep tq now q cpus).cpus.length = cpus.length := by
  simp only [queueStep]
  split
  · rfl
  split
  · split
    · next i cpus1 hcf => simpa using claimFirstFree_length cpus i cpus1 hcf
    · rfl
  · rfl

lemma appendUsage_map_length :
    ∀ (usage : List (List ℕ)) (cpus : List CPU), usage.length = cpus.length →
      (appendUsage usage cpus).map List.length = usage.map (fun d => d.length + 1) := by
  intro usage
  induction usage with
  | nil => intro cpus h; simp [appendUsage]
  | cons d rest ih =>
    intro cpus h
    cases cpus with
    | nil => simp at h
    | cons c cs =>
      have h1 : rest.length = cs.length := by simpa using h
      have ihx := ih cs h1
      simp only [appendUsage] at ihx ⊢
      simp [ihx]

lemma appendFill_spec :
    ∀ (fill : List (String × List ℕ)) (queues : List (String × ProcessQueue)),
      fill.length = queues.length →
      (appendFill fill queues).map (fun kd => kd.2.length)
        = fill.map (fun kd => kd.2.length + 1)
      ∧ (appendFill fill queues).length = fill.length := by
  intro fill
  induction fill with
  | nil => intro queues h; simp [appendFill]
  | cons kd rest ih =>
    intro queues h
    cases queues with
    | nil => simp at h
    | cons kq qs =>
      have h1 : rest.length = qs.length := by simpa using h
      obtain ⟨i1, i2⟩ := ih qs h1
      simp only [appendFill] at i1 i2 ⊢
      simp [i1, i2]

lemma map_length_add (l : List (List ℕ)) (k : ℕ) :
    l.map (fun d => d.length + k) = (l.map List.length).map (fun m => m + k) := by
  simp [List.map_map, Function.comp_def]

lemma map_fill_length (l : List (String × List ℕ)) (k : ℕ) :
    l.map (fun kd => kd.2.length + k) = (l.map (fun kd => kd.2.length)).map (fun m => m + k) := by
  simp [List.map_map, Function.comp_def]

lemma map_add_add (l : List ℕ) (a b : ℕ) :
    (l.map (fun m => m + a)).map (fun m => m + b) = l.map (fun m => m + (a + b)) := by
  induction l with
  | nil => rfl
  | cons x xs ih => simp [ih, Nat.add_assoc]

lemma map_add_congr (l : List ℕ) (a b : ℕ) (h : a = b) :
    l.map (fun m => m + a) = l.map (fun m => m + b) := by rw [h]

lemma tickQueues_spec (tq now : ℤ) :
    ∀ (qs : List (String × ProcessQueue)) (cpus : List CPU) (usage : List (List ℕ)),
      usage.length = cpus.length →
      (tickQueues tq now qs cpus usage).queues.length = qs.length
      ∧ (tickQueues tq now qs cpus usage).cpus.length = cpus.length
      ∧ (tickQueues tq now qs cpus usage).usage.map List.length
          = usage.map (fun d => d.length + qs.length)
      ∧ (tickQueues tq now qs cpus usage).usage.length = usage.length := by
  intro qs
  induction qs with
  | nil =>
    intro cpus usage h
    refine ⟨rfl, rfl, ?_, rfl⟩
    simp [tickQueues]
  | cons kq rest ih =>
    intro cpus usage h
    obtain ⟨key, q⟩ := kq
    have hst := queueStep_cpus_length tq now q cpus
    have hlen2 : (appendUsage usage (queueStep tq now q cpus).cpus).length
        = (queueStep tq now q cpus).cpus.length := by
      simp only [appendUsage, List.length_zipWith]
      omega
    obtain ⟨i1, i2, i3, i4⟩ := ih (queueStep tq now q cpus).cpus
      (appendUsage usage (queueStep tq now q cpus).cpus) hlen2
    have hmap := appendUsage_map_length usage (queueStep tq now q cpus).cpus (by omega)
    have hchain : (appendUsage usage (queueStep tq now q cpus).cpus).map
          (fun d => d.length + rest.length)
        = usage.map (fun d => d.length + (rest.length + 1)) := by
      conv_lhs => rw [map_length_add, hmap, map_length_add, map_add_add]
      rw [Nat.add_comm 1 rest.length, ← map_length_add]
    refine ⟨?_, ?_, ?_, ?_⟩
    · show ((key, (queueStep tq now q cpus).queue) ::
          (tickQueues tq now rest (queueStep tq now q cpus).cpus
            (appendUsage usage (queueStep tq now q cpus).cpus)).queues).length
        = rest.length + 1
      rw [List.length_cons, i1]
    · show (tickQueues tq now rest (queueStep tq now q cpus).cpus
          (appendUsage usage (queueStep tq now q cpus).cpus)).cpus.length = cpus.length
      rw [i2, hst]
    · show (tickQueues tq now rest (queueStep tq now q cpus).cpus
          (appendUsage usage (queueStep tq now q cpus).cpus)).usage.map List.length
        = usage.map (fun d => d.length + (rest.length + 1))
      rw [i3, hchain]
    · show (tickQueues tq now rest (queueStep tq now q cpus).cpus
          (appendUsage usage (queueStep tq now q cpus).cpus)).usage.length = usage.length
      rw [i4]
      simp only [appendUsage, List.length_zipWith]
      omega

lemma runPending_cpus_length :
    ∀ (pending : List (ℕ × Process)) (cpus : List CPU) (completed : ℕ),
      (runPending cpus completed pending).1.length = cpus.length := by
  intro pending
  induction pending with
  | nil => intro cpus completed; rfl
  | cons ip rest ih =>
    intro cpus completed
    obtain ⟨i, p⟩ := ip
    cases h : cpus[i]? with
    | none =>
      simp only [runPending, h]
      exact ih cpus completed
    | some cpu =>
      simp only [runPending, h]
      rw [ih, List.length_set]

lemma tick_histories (s : MultiLevelQueueScheduler) (now : ℤ)
    (h1 : s.cpu_usage_data.length = s.cpus.length)
    (h2 : s.queue_fill_data.length = s.queues.length) :
    ((s.tick now).1.cpu_usage_data.map List.length
        = s.cpu_usage_data.map (fun d => d.length + s.queues.length))
    ∧ ((s.tick now).1.queue_fill_data.map (fun kd => kd.2.length)
        = s.queue_fill_data.map (fun kd => kd.2.length + 1))
    ∧ (s.tick now).1.cpu_usage_data.length = (s.tick now).1.cpus.length
    ∧ (s.tick now).1.queue_fill_data.length = (s.tick now).1.queues.length
    ∧ (s.tick now).1.queues.length = s.queues.length := by
  obtain ⟨hq, hc, hm, hl⟩ :=
    tickQueues_spec s.time_quantum now s.queues s.cpus s.cpu_usage_data h1
  obtain ⟨hfm, hfl⟩ := appendFill_spec s.queue_fill_data
    (tickQueues s.time_quantum now s.queues s.cpus s.cpu_usage_data).queues (by rw [h2, hq])
  simp only [MultiLevelQueueScheduler.tick]
  split
  · exact ⟨hm, hfm, by rw [hl, h1, hc], by rw [hfl, h2, hq], hq⟩
  · exact ⟨hm, hfm, by rw [hl, h1, runPending_cpus_length, hc],
      by rw [hfl, h2, hq], hq⟩

/-- Claim C1 (amended): in every run of `run_scheduler` that performs `N`
iterations of the tick loop, every per-CPU usage sequence grows by one
entry per *priority level* per tick — the busy-state sampling loop sits
inside the per-priority loop (mlqs.py 194-195) — so it gains
`N * 5` entries, while every per-queue length sequence gains exactly `N`
entries; the two families of history sequences therefore do not have equal
lengths. -/
theorem history_growth_per_priority_level (s : MultiLevelQueueScheduler) (now : ℤ) (n : ℕ)
    (h1 : s.cpu_usage_data.length = s.cpus.length)
    (h2 : s.queue_fill_data.length = s.queues.length) :
    (tickIter n s now).cpu_usage_data.map List.length
        = s.cpu_usage_data.map (fun d => d.length + n * s.queues.length)
    ∧ (tickIter n s now).queue_fill_data.map (fun kd => kd.2.length)
        = s.queue_fill_data.map (fun kd => kd.2.length + n) := by
  induction n generalizing s now with
  | zero => simp [tickIter]
  | succ n ih =>
    obtain ⟨hu, hf, h1a, h2a, hql⟩ := tick_histories s now h1 h2
    obtain ⟨ihu, ihf⟩ := ih (s.tick now).1 (now + 1) h1a h2a
    rw [hql] at ihu
    constructor
    · calc (tickIter (n + 1) s now).cpu_usage_data.map List.length
          = (tickIter n (s.tick now).1 (now + 1)).cpu_usage_data.map List.length := rfl
        _ = (s.tick now).1.cpu_usage_data.map
              (fun d => d.length + n * s.queues.length) := ihu
        _ = ((s.tick now).1.cpu_usage_data.map List.length).map
              (fun m => m + n * s.queues.length) := map_length_add _ _
        _ = (s.cpu_usage_data.map (fun d => d.length + s.queues.length)).map
              (fun m => m + n * s.queues.length) := by rw [hu]
        _ = ((s.cpu_usage_data.map List.length).map (fun m => m + s.queues.length)).map
              (fun m => m + n * s.queues.length) := by rw [← map_length_add]
        _ = (s.cpu_usage_data.map List.length).map
              (fun m => m + (s.queues.length + n * s.queues.length)) := map_add_add _ _ _
        _ = (s.cpu_usage_data.map List.length).map
              (fun m => m + (n + 1) * s.queues.length) := map_add_congr _ _ _ (by ring)
        _ = s.cpu_usage_data.map (fun d => d.length + (n + 1) * s.queues.length) :=
              (map_length_add _ _).symm
    · calc (tickIter (n + 1) s now).queue_fill_data.map (fun kd => kd.2.length)
          = (tickIter n (s.tick now).1 (now + 1)).queue_fill_data.map
              (fun kd => kd.2.length) := rfl
        _ = (s.tick now).1.queue_fill_data.map (fun kd => kd.2.length + n) := ihf
        _ = ((s.tick now).1.queue_fill_data.map (fun kd => kd.2.length)).map
              (fun m => m + n) := map_fill_length _ _
        _ = (s.queue_fill_data.map (fun kd => kd.2.length + 1)).map (fun m => m + n) := by
              rw [hf]
        _ = ((s.queue_fill_data.map (fun kd => kd.2.length)).map (fun m => m + 1)).map
              (fun m => m + n) := by rw [← map_fill_length]
        _ = (s.queue_fill_data.map (fun kd => kd.2.length)).map (fun m => m + (1 + n)) :=
              map_add_add _ _ _
        _ = (s.queue_fill_data.map (fun kd => kd.2.length)).map (fun m => m + (n + 1)) :=
              map_add_congr _ _ _ (by ring)
        _ = s.queue_fill_data.map (fun kd => kd.2.length + (n + 1)) :=
              (map_fill_length _ _).symm

/-- Claim C1 witness: one tick on a fresh two-CPU scheduler, with the
length-alignment hypotheses discharged concretely. -/
theorem history_growth_per_priority_level_witness :
    (MultiLevelQueueScheduler.init 2 0 1 2 3).cpu_usage_data.length
        = (MultiLevelQueueScheduler.init 2 0 1 2 3).cpus.length
    ∧ (MultiLevelQueueScheduler.init 2 0 1 2 3).queue_fill_data.length
        = (MultiLevelQueueScheduler.init 2 0 1 2 3).queues.length
    ∧ (tickIter 1 (MultiLevelQueueScheduler.init 2 0 1 2 3) 0).cpu_usage_data.map List.length
        = (MultiLevelQueueScheduler.init 2 0 1 2 3).cpu_usage_data.map
            (fun d => d.length + 1 * (MultiLevelQueueScheduler.init 2 0 1 2 3).queues.length) :=
  ⟨by decide, by decide,
    (history_growth_per_priority_level (MultiLevelQueueScheduler.init 2 0 1 2 3) 0 1
      (by decide) (by decide)).1⟩

/-- Claim C1 counterexample: a run of `run_scheduler` that performs exactly
one iteration (fuel 1 suffices, so the loop breaks on the first tick)
leaves the single CPU's usage sequence with `5` entries — one per priority
level — while every queue-length sequence has `1` entry, refuting the claim
that both kinds of history sequence have exactly `N = 1` entries. -/
theorem history_samples_counterexample :
    (((MultiLevelQueueScheduler.init 1 0 1 2 3).run_scheduler 1 0).map
        (fun s => (s.cpu_usage_data.map List.length,
                   s.queue_fill_data.map (fun kd => kd.2.length))))
      = some ([5], [1, 1, 1, 1, 1])
    ∧ (5 : ℕ) ≠ 1 :=
  ⟨by decide, by decide⟩

lemma queueStep_empty (tq now : ℤ) (q : ProcessQueue) (cpus : List CPU)
    (hq : q.queue = []) : queueStep tq now q cpus = ⟨q, cpus, true, none, 0⟩ := by
  simp [queueStep, ProcessQueue.is_empty, hq]

lemma appendUsage_all_free :
    ∀ (usage : List (List ℕ)) (cpus : List CPU), usage.length = cpus.length →
      (∀ c ∈ cpus, c.is_free = true) →
      appendUsage usage cpus = usage.map (fun d => d ++ [0]) := by
  intro usage
  induction usage with
  | nil => intro cpus h hf; simp [appendUsage]
  | cons d rest ih =>
    intro cpus h hf
    cases cpus with
    | nil => simp at h
    | cons c cs =>
      have h1 : rest.length = cs.length := by simpa using h
      have hc : c.is_free = true := hf c (by simp)
      have ihx := ih cs h1 (fun x hx => hf x (by simp [hx]))
      simp only [appendUsage] at ihx ⊢
      simp [ihx, hc]

lemma tickQueues_empty_queues (tq now : ℤ) :
    ∀ (qs : List (String × ProcessQueue)) (cpus : List CPU) (usage : List (List ℕ)),
      (∀ kq ∈ qs, (kq.2).queue = []) →
      usage.length = cpus.length →
      (∀ c ∈ cpus, c.is_free = true) →
      tickQueues tq now qs cpus usage
        = ⟨qs, cpus, usage.map (fun d => d ++ List.replicate qs.length 0), true, [], 0⟩ := by
  intro qs
  induction qs with
  | nil =>
    intro cpus usage hq he hf
    simp [tickQueues]
  | cons kq rest ih =>
    intro cpus usage hq he hf
    obtain ⟨key, q⟩ := kq
    have hq0 : q.queue = [] := hq (key, q) (by simp)
    have ihx := ih cpus (usage.map (fun d => d ++ [0]))
      (fun x hx => hq x (by simp [hx])) (by simp [he]) hf
    simp only [tickQueues, queueStep_empty tq now q cpus hq0,
      appendUsage_all_free usage cpus he hf, ihx]
    simp [List.map_map, Function.comp_def, List.replicate_succ]

lemma tick_all_empty (s : MultiLevelQueueScheduler) (now : ℤ)
    (hqs : ∀ kq ∈ s.queues, (kq.2).queue = [])
    (he : s.cpu_usage_data.length = s.cpus.length)
    (hf : ∀ c ∈ s.cpus, c.is_free = true)
    (ht : s.completed_processes = s.total_processes) :
    s.tick now = ({ s with cpu_usage_data := s.cpu_usage_data.map (fun d => d ++ List.replicate s.queues.length 0), queue_fill_data := appendFill s.queue_fill_data s.queues, completed_processes := s.completed_processes + 0 }, true) := by
  have htk := tickQueues_empty_queues s.time_quantum now s.queues s.cpus s.cpu_usage_data hqs he hf
  simp only [MultiLevelQueueScheduler.tick, htk]
  simp [ht]

/-- Claim C7: a scheduler constructed with target process count 0 and no
processes submitted terminates on its first tick (`run_scheduler` with fuel
1 already returns a result), every returned per-CPU usage sequence has 5
entries and every per-queue length sequence has 1 entry (all lengths ≥ 1),
and every queue's average wait time is 0. -/
theorem run_scheduler_zero_processes (num_cpus : ℕ)
    (speedup time_quantum burst_time : ℤ) :
    (((MultiLevelQueueScheduler.init num_cpus 0 speedup time_quantum burst_time).run_scheduler 1 0).map
        (fun s => s.cpu_usage_data.map List.length)) = some (List.replicate num_cpus 5)
    ∧ (((MultiLevelQueueScheduler.init num_cpus 0 speedup time_quantum burst_time).run_scheduler 1 0).map
        (fun s => s.queue_fill_data.map (fun kd => kd.2.length))) = some [1, 1, 1, 1, 1]
    ∧ (((MultiLevelQueueScheduler.init num_cpus 0 speedup time_quantum burst_time).run_scheduler 1 0).map
        (fun s => s.average_wait_times.map Prod.snd)) = some [0, 0, 0, 0, 0] := by
  have hqs : ∀ kq ∈ (MultiLevelQueueScheduler.init num_cpus 0 speedup time_quantum burst_time).queues, (kq.2).queue = [] := by
    intro kq hkq
    simp [MultiLevelQueueScheduler.init] at hkq
    rcases hkq with h | h | h | h | h <;> simp [h, ProcessQueue.init]
  have hfree : ∀ c ∈ (MultiLevelQueueScheduler.init num_cpus 0 speedup time_quantum burst_time).cpus, c.is_free = true := by
    intro c hc
    simp [MultiLevelQueueScheduler.init, List.mem_map] at hc
    obtain ⟨i, -, rfl⟩ := hc
    rfl
  have hlen : (MultiLevelQueueScheduler.init num_cpus 0 speedup time_quantum burst_time).cpu_usage_data.length = (MultiLevelQueueScheduler.init num_cpus 0 speedup time_quantum burst_time).cpus.length := by
    simp [MultiLevelQueueScheduler.init]
  have htick := tick_all_empty (MultiLevelQueueScheduler.init num_cpus 0 speedup time_quantum burst_time) 0 hqs hlen hfree rfl
  have hrun : (MultiLevelQueueScheduler.init num_cpus 0 speedup time_quantum burst_time).run_scheduler 1 0 = some ((MultiLevelQueueScheduler.init num_cpus 0 speedup time_quantum burst_time).tick 0).1 := by
    rw [MultiLevelQueueScheduler.run_scheduler, htick]
    simp
  rw [hrun, htick]
  refine ⟨?_, ?_, ?_⟩
  · simp [MultiLevelQueueScheduler.init, List.map_replicate, priorityLevels]
  · simp only [Option.map_some']
    congr 1
  · simp only [Option.map_some']
    congr 1

end MLQS
